import Mathlib

/-!
# Verification of the ComicReader storage layer

Shallow embedding of the storage/download layer of the ComicReader repository
(`src/lib/dexieDB.ts`, `src/lib/getComics.ts`, `src/lib/types.ts`) together
with proofs about the behaviour described in the specification.

Modelling conventions:
* IndexedDB tables (Dexie `Table`) are modelled as association lists keyed by
  the `id` field; `put` is an upsert that replaces the record with the same id
  (or appends a fresh one), `get` is the first lookup by id, `delete` removes
  the record with the id.
* `async` functions become pure state-passing functions; a JavaScript
  exception / rejected promise is an `Except.error`.
* Network effects (`fetch`, `Date.now()`) are supplied by an explicit
  environment value; the number of network fetches performed by a call is
  returned alongside the result so that "no network fetch happened" is
  expressible.
* JavaScript strings are kept as Lean `String`s; where the code manipulates
  characters (`range.split('-')[0]`, `parseInt`, `localeCompare`) the model
  works on the underlying character list.
-/

namespace ComicReader

/-- `readStatus` values of `ReadComic` / `File` (src/lib/types.ts, dexieDB.ts). -/
inductive ReadStatus where
  | unread
  | in_progress
  | completed
deriving Repr, DecidableEq

/-- `ComicDownloadStatus` (src/lib/dexieDB.ts line 29). -/
inductive DownloadStatus where
  | in_progress
  | completed
  | failed
deriving Repr, DecidableEq

/-- Record of the `readComics` table (interface `ReadComic`, dexieDB.ts lines 5-10). -/
structure ReadComic where
  id : String
  status : ReadStatus
  lastPage : Nat
  totalPages : Nat
deriving Repr, DecidableEq

/-- Downloaded blobs are opaque binary data; we model a `Blob` by its contents. -/
def Blob := String
deriving instance DecidableEq, Repr for Blob

/-- `ComicDownloadMetadata` (dexieDB.ts lines 31-40).  Optional fields become
`Option`s; `data?: Blob` is `Option Blob`. -/
structure ComicDownloadMetadata where
  id : String
  url : String
  status : DownloadStatus
  progress : Nat
  downloadedAt : Option Nat := none
  error : Option String := none
  data : Option Blob := none
  fileSize : Option Nat := none
deriving Repr, DecidableEq

/-- `ContentItem` (src/lib/types.ts): a file with its metadata and progress
fields, or a folder owning a list of children.  The `List` nesting mirrors
`children: ContentItem[]`. -/
inductive ContentItem where
  | file (id name : String) (size : Nat) (readStatus : ReadStatus)
      (lastPage totalPages : Nat) (extension link : String)
  | folder (id name : String) (children : List ContentItem)

/-- The aggregate persisted state of `ComicsDatabase` (dexieDB.ts lines 42-60):
the single-row `comics` snapshot, the `readComics` progress table and the
`comicDownloads` table.  (`lastReadComic`/`lastFolder` play no role in the
claims and are omitted.) -/
structure DBState where
  comicsRoot : Option (List ContentItem) := none
  readComics : List ReadComic := []
  comicDownloads : List ComicDownloadMetadata := []

/-! ## Table primitives (Dexie `put` / `get` / `delete` on an id-keyed table) -/

/-- Dexie `table.put r`: replace the record whose primary key equals `r.id`,
or append `r` when no such record exists. -/
def putById {α : Type} (getId : α → String) (l : List α) (r : α) : List α :=
  if l.any (fun x => getId x == getId r) then
    l.map (fun x => if getId x == getId r then r else x)
  else
    l ++ [r]

/-- Dexie `table.get id`: the record with the given primary key. -/
def getById {α : Type} (getId : α → String) (l : List α) (id : String) : Option α :=
  l.find? (fun x => getId x == id)

/-- Dexie `table.delete id`: remove the record with the given primary key. -/
def deleteById {α : Type} (getId : α → String) (l : List α) (id : String) : List α :=
  l.filter (fun x => !(getId x == id))

/-! ## Progress table operations -/

/-- `getComicStatus(id)` (dexieDB.ts lines 91-93): `readComics.get(id)`. -/
def getComicStatus (st : DBState) (id : String) : Option ReadComic :=
  getById (·.id) st.readComics id

/-- The per-file information stored in the status `Map` built by
`getComicsData` / `updateFromRemoteDB` (dexieDB.ts lines 77-82). -/
structure StatusInfo where
  status : ReadStatus
  lastPage : Nat
  totalPages : Nat
deriving Repr, DecidableEq

/-- The status `Map`: association list from comic id to its progress info. -/
abbrev StatusMap := List (String × StatusInfo)

/-- `new Map(readComics.map(item => [item.id, {...}]))` (dexieDB.ts lines 77-82). -/
def statusMapOf (readComics : List ReadComic) : StatusMap :=
  readComics.map (fun item => (item.id, ⟨item.status, item.lastPage, item.totalPages⟩))

/-- Lookup in the status map (`statusMap.get(item.id)`).  The `readComics`
table is keyed by id, so the map has no duplicate keys and first-match lookup
agrees with JavaScript `Map` semantics. -/
def StatusMap.lookup (m : StatusMap) (id : String) : Option StatusInfo :=
  List.lookup id m

/-! ## `updateStatusInData` (dexieDB.ts lines 417-442)

`processItem` annotates every file node from the status map (defaulting to
`unread`/0/0) and recurses through every folder's children; the top level
applies it to every item. -/

mutual

/-- The body of `processItem` in `updateStatusInData`. -/
def annotateItem (m : StatusMap) : ContentItem → ContentItem
  | .file id name size _ _ _ ext link =>
    match m.lookup id with
    | some info => .file id name size info.status info.lastPage info.totalPages ext link
    | none => .file id name size .unread 0 0 ext link
  | .folder id name children => .folder id name (annotateList m children)

/-- `folder.children.forEach(processItem)`. -/
def annotateList (m : StatusMap) : List ContentItem → List ContentItem
  | [] => []
  | c :: cs => annotateItem m c :: annotateList m cs

end

/-- `updateStatusInData(data, statusMap)` (dexieDB.ts lines 417-442):
`data.forEach(processItem)`.  The in-place mutation is modelled by returning
the rewritten list. -/
def updateStatusInData (data : List ContentItem) (m : StatusMap) : List ContentItem :=
  annotateList m data

/-- `getComicsData()` (dexieDB.ts lines 71-88): read the `root` row and
annotate it with the progress table; `undefined` when no snapshot exists.
The annotation mutates only the in-memory copy, so the stored state is
unchanged. -/
def getComicsData (st : DBState) : Option (List ContentItem) :=
  match st.comicsRoot with
  | none => none
  | some content => some (updateStatusInData content (statusMapOf st.readComics))

/-! ## `updateStatusForId` (dexieDB.ts lines 445-473)

`processItem` updates the first file node with the given id found in each
branch (a folder stops scanning its children at the first hit and reports the
hit upward), while the top-level `forEach` visits every top-level item
regardless of earlier hits. -/

mutual

/-- `processItem` of `updateStatusForId`: returns the rewritten item together
with the "found and updated" flag. -/
def updateItemForId (id : String) (status : ReadStatus) (lastPage : Nat)
    (totalPages : Option Nat) : ContentItem → ContentItem × Bool
  | .file fid name size rs lp tp ext link =>
    if fid == id then
      (.file fid name size status lastPage (totalPages.getD tp) ext link, true)
    else
      (.file fid name size rs lp tp ext link, false)
  | .folder fid name children =>
    let r := updateChildrenForId id status lastPage totalPages children
    (.folder fid name r.1, r.2)

/-- The `for (const child of folder.children)` loop: stop at the first child
in which the id was found. -/
def updateChildrenForId (id : String) (status : ReadStatus) (lastPage : Nat)
    (totalPages : Option Nat) : List ContentItem → List ContentItem × Bool
  | [] => ([], false)
  | c :: cs =>
    let r := updateItemForId id status lastPage totalPages c
    if r.2 then (r.1 :: cs, true)
    else
      let rs := updateChildrenForId id status lastPage totalPages cs
      (r.1 :: rs.1, rs.2)

end

/-- `updateStatusForId(data, id, status, lastPage, totalPages?)`
(dexieDB.ts lines 445-473): `data.forEach(processItem)` — every top-level
item is processed (forEach ignores the returned flag). -/
def updateStatusForId (data : List ContentItem) (id : String) (status : ReadStatus)
    (lastPage : Nat) (totalPages : Option Nat) : List ContentItem :=
  data.map (fun item => (updateItemForId id status lastPage totalPages item).1)

/-! ## `markComicStatus` and `setTotalPages` (dexieDB.ts lines 96-133) -/

/-- `markComicStatus(id, status, lastPage = 0, totalPages = 0)`
(dexieDB.ts lines 96-110): upsert the progress record, then, when the
snapshot exists, update the node in the snapshot and re-persist it. -/
def markComicStatus (st : DBState) (id : String) (status : ReadStatus)
    (lastPage : Nat := 0) (totalPages : Nat := 0) : DBState :=
  let rc := putById (·.id) st.readComics ⟨id, status, lastPage, totalPages⟩
  match st.comicsRoot with
  | some content =>
    { st with
      readComics := rc
      comicsRoot := some (updateStatusForId content id status lastPage (some totalPages)) }
  | none => { st with readComics := rc }

/-- `setTotalPages(id, totalPages)` (dexieDB.ts lines 112-133): preserve the
existing record's status/lastPage when present, else create the record with
defaults `unread`/0; then update the snapshot like `markComicStatus`, using
`comic?.status || "unread"` and `comic?.lastPage || 0` (for a `Nat` page the
JavaScript `|| 0` agrees with `getD 0` since the only falsy value is 0). -/
def setTotalPages (st : DBState) (id : String) (totalPages : Nat) : DBState :=
  let comic := getById (·.id) st.readComics id
  let rc :=
    match comic with
    | some c => putById (·.id) st.readComics { c with totalPages := totalPages }
    | none => putById (·.id) st.readComics ⟨id, .unread, 0, totalPages⟩
  match st.comicsRoot with
  | some content =>
    { st with
      readComics := rc
      comicsRoot := some (updateStatusForId content id
        ((comic.map (·.status)).getD .unread)
        ((comic.map (·.lastPage)).getD 0) (some totalPages)) }
  | none => { st with readComics := rc }

end ComicReader

namespace ComicReader

/-! ## First lemmas about the table primitives -/

theorem find?_map_update {α : Type} (getId : α → String) (l : List α) (r : α) :
    (l.map (fun x => if getId x == getId r then r else x)).find?
        (fun x => getId x == getId r)
      = if l.any (fun x => getId x == getId r) then some r else none := by
  induction l with
  | nil => rfl
  | cons a as ih =>
    by_cases ha : (getId a == getId r) = true
    · have h1 : (if (getId a == getId r) = true then r else a) = r := if_pos ha
      rw [List.map_cons, h1, List.find?_cons_of_pos _ (by simp), List.any_cons, ha,
        Bool.true_or, if_pos rfl]
    · have hfa : (getId a == getId r) = false := by simpa using ha
      have h1 : (if (getId a == getId r) = true then r else a) = a := if_neg ha
      rw [List.map_cons, h1, List.find?_cons_of_neg _ (by simp [hfa]), List.any_cons, hfa,
        Bool.false_or, ih]

theorem getById_putById_self {α : Type} (getId : α → String) (l : List α) (r : α) :
    getById getId (putById getId l r) (getId r) = some r := by
  unfold putById getById
  by_cases h : l.any (fun x => getId x == getId r)
  · rw [if_pos h, find?_map_update, if_pos h]
  · rw [if_neg h, List.find?_append]
    have hnone : l.find? (fun x => getId x == getId r) = none := by
      rw [List.find?_eq_none]
      intro x hx hbeq
      exact h (List.any_eq_true.mpr ⟨x, hx, hbeq⟩)
    simp [hnone]

theorem getById_putById_other {α : Type} (getId : α → String) (l : List α) (r : α)
    (id : String) (h : getId r ≠ id) :
    getById getId (putById getId l r) id = getById getId l id := by
  unfold putById getById
  by_cases hmem : l.any (fun x => getId x == getId r)
  · rw [if_pos hmem]
    clear hmem
    induction l with
    | nil => simp
    | cons a as ih =>
      by_cases ha : (getId a == getId r) = true
      · have ha' : getId a = getId r := by simpa using ha
        have hra : (getId r == id) = false := by simpa using h
        have haid : (getId a == id) = false := by rw [ha']; exact hra
        have h1 : (if (getId a == getId r) = true then r else a) = r := if_pos ha
        rw [List.map_cons, h1, List.find?_cons_of_neg _ (by simp [hra]),
          List.find?_cons_of_neg _ (by simp [haid])]
        exact ih
      · have hfa : (getId a == getId r) = false := by simpa using ha
        have h1 : (if (getId a == getId r) = true then r else a) = a := if_neg ha
        rw [List.map_cons, h1]
        cases haid : (getId a == id)
        · rw [List.find?_cons_of_neg _ (by simp [haid]),
            List.find?_cons_of_neg _ (by simp [haid])]
          exact ih
        · rw [List.find?_cons_of_pos _ (by simp [haid]),
            List.find?_cons_of_pos _ (by simp [haid])]
  · rw [if_neg hmem, List.find?_append]
    have hr : ([r].find? (fun x => getId x == id)) = none := by
      rw [List.find?_eq_none]
      intro x hx
      simp only [List.mem_singleton] at hx
      subst hx
      simpa using h
    rw [hr]
    cases (l.find? fun x => getId x == id) <;> rfl

theorem getById_id_eq {α : Type} (getId : α → String) (l : List α) (id : String) (c : α)
    (h : getById getId l id = some c) : getId c = id := by
  unfold getById at h
  have := List.find?_some h
  simpa using this

/-! ## Progress-table lemmas for `markComicStatus` / `setTotalPages` -/

theorem readComics_markComicStatus (st : DBState) (id : String) (status : ReadStatus)
    (lp tp : Nat) :
    (markComicStatus st id status lp tp).readComics
      = putById (·.id) st.readComics ⟨id, status, lp, tp⟩ := by
  unfold markComicStatus
  cases hroot : st.comicsRoot <;> simp [hroot]

theorem readComics_setTotalPages (st : DBState) (id : String) (tp : Nat) :
    (setTotalPages st id tp).readComics
      = match getById (·.id) st.readComics id with
        | some c => putById (·.id) st.readComics { c with totalPages := tp }
        | none => putById (·.id) st.readComics ⟨id, .unread, 0, tp⟩ := by
  unfold setTotalPages
  cases hroot : st.comicsRoot <;> simp [hroot]

theorem getComicStatus_markComicStatus_self (st : DBState) (id : String)
    (status : ReadStatus) (lp tp : Nat) :
    getComicStatus (markComicStatus st id status lp tp) id = some ⟨id, status, lp, tp⟩ := by
  unfold getComicStatus
  rw [readComics_markComicStatus]
  exact getById_putById_self (·.id) st.readComics ⟨id, status, lp, tp⟩

theorem getComicStatus_setTotalPages_of_some (st : DBState) (id : String) (tp : Nat)
    (c : ReadComic) (hc : getComicStatus st id = some c) :
    getComicStatus (setTotalPages st id tp) id = some { c with totalPages := tp } := by
  have hid : c.id = id := getById_id_eq _ _ _ _ hc
  unfold getComicStatus at *
  rw [readComics_setTotalPages, hc]
  have := getById_putById_self (·.id) st.readComics { c with totalPages := tp }
  simpa [hid] using this

theorem getComicStatus_setTotalPages_of_none (st : DBState) (id : String) (tp : Nat)
    (hc : getComicStatus st id = none) :
    getComicStatus (setTotalPages st id tp) id = some ⟨id, .unread, 0, tp⟩ := by
  unfold getComicStatus at *
  rw [readComics_setTotalPages, hc]
  exact getById_putById_self (·.id) st.readComics ⟨id, .unread, 0, tp⟩

/-- **C7.** `setTotalPages(id, totalPages)` preserves the existing status and
lastPage when a progress record for `id` exists, and otherwise creates a
record with status `unread` and lastPage 0; consequently, for every id,
`markStatus(id, in_progress, 5)` followed by `setTotalPages(id, 20)` followed
by reading the record back yields `{status: in_progress, lastPage: 5,
totalPages: 20}`. -/
theorem claim_C7 :
    (∀ (st : DBState) (id : String) (tp : Nat) (c : ReadComic),
        getComicStatus st id = some c →
        getComicStatus (setTotalPages st id tp) id = some { c with totalPages := tp }) ∧
    (∀ (st : DBState) (id : String) (tp : Nat),
        getComicStatus st id = none →
        getComicStatus (setTotalPages st id tp) id = some ⟨id, .unread, 0, tp⟩) ∧
    (∀ (st : DBState) (id : String),
        getComicStatus (setTotalPages (markComicStatus st id .in_progress 5 0) id 20) id
          = some ⟨id, .in_progress, 5, 20⟩) := by
  refine ⟨getComicStatus_setTotalPages_of_some, getComicStatus_setTotalPages_of_none, ?_⟩
  intro st id
  exact getComicStatus_setTotalPages_of_some _ _ _ _
    (getComicStatus_markComicStatus_self st id .in_progress 5 0)

/-- Witness for C7: a concrete run through both hypotheses-bearing branches. -/
theorem claim_C7_witness :
    getComicStatus
        (setTotalPages ⟨none, [⟨"x", .in_progress, 5, 0⟩], []⟩ "x" 20) "x"
      = some ⟨"x", .in_progress, 5, 20⟩ :=
  claim_C7.1 ⟨none, [⟨"x", .in_progress, 5, 0⟩], []⟩ "x" 20 ⟨"x", .in_progress, 5, 0⟩ (by rfl)

/-! ## The download engine (dexieDB.ts lines 243-369)

`fetch`/`Date.now()` are supplied by an environment.  `retryFetch` makes up
to three attempts of the same request; its overall outcome (a response body,
a non-ok HTTP status, a timeout abort, or a final network failure) is the
single `fetch` field of the environment — every failure mode of the `try`
block is an `Except.error` carrying the message stored into `meta.error`.
The third component of the result counts the network transfers performed by
the call: `0` means the cache short-circuit answered without any fetch. -/

structure FetchEnv where
  fetch : Except String (Nat × Blob)
  now : Nat

/-- The `{id, url}` argument of `downloadComic`/`preloadComic`. -/
structure ComicRef where
  id : String
  url : String

/-- The comparator of `enforceComicLimit`
(`(a, b) => (a.downloadedAt || 0) - (b.downloadedAt || 0)`, dexieDB.ts
lines 359-361), as the ordering relation it induces. -/
def dlLE (a b : ComicDownloadMetadata) : Prop :=
  a.downloadedAt.getD 0 ≤ b.downloadedAt.getD 0

instance : DecidableRel dlLE := fun a b =>
  inferInstanceAs (Decidable (a.downloadedAt.getD 0 ≤ b.downloadedAt.getD 0))

instance : IsTotal ComicDownloadMetadata dlLE :=
  ⟨fun a b => Nat.le_total (a.downloadedAt.getD 0) (b.downloadedAt.getD 0)⟩

instance : IsTrans ComicDownloadMetadata dlLE :=
  ⟨fun _ _ _ h1 h2 => Nat.le_trans h1 h2⟩

/-- `comicDownloads.where("status").equals("completed").toArray()`: the
`completed` records of the download table. -/
def completedOf (t : List ComicDownloadMetadata) : List ComicDownloadMetadata :=
  t.filter (fun r => r.status == .completed)

/-- `enforceComicLimit()` (dexieDB.ts lines 351-369): collect the `completed`
records, and when there are more than 10 of them, sort them ascending by
`downloadedAt || 0` (JavaScript's stable sort is modelled by insertion sort,
which is stable) and delete all but the newest 10 from the table. -/
def enforceComicLimit (t : List ComicDownloadMetadata) : List ComicDownloadMetadata :=
  let completed := completedOf t
  if completed.length > 10 then
    let sorted := List.insertionSort dlLE completed
    let toDelete := sorted.take (completed.length - 10)
    toDelete.foldl (fun acc r => deleteById (·.id) acc r.id) t
  else t

/-- The body of `downloadComic` past the cache check (dexieDB.ts lines
253-314): persist an `in_progress` record, fetch, on success persist the
progress/fileSize update, then the `completed` record with the blob and the
completion timestamp, and run `enforceComicLimit`; on any failure persist the
`failed` record with the error message and re-throw. -/
def performDownload (env : FetchEnv) (st : DBState) (comic : ComicRef) :
    Except String ComicDownloadMetadata × DBState × Nat :=
  let meta1 : ComicDownloadMetadata :=
    { id := comic.id, url := comic.url, status := .in_progress, progress := 0 }
  let t1 := putById (·.id) st.comicDownloads meta1
  match env.fetch with
  | .ok (contentLength, blob) =>
    let meta2 := { meta1 with progress := 1, fileSize := some contentLength }
    let t2 := putById (·.id) t1 meta2
    let meta3 := { meta2 with
      status := .completed
      progress := 100
      downloadedAt := some env.now
      data := some blob }
    let t3 := putById (·.id) t2 meta3
    (.ok meta3, { st with comicDownloads := enforceComicLimit t3 }, 1)
  | .error e =>
    let meta2 := { meta1 with status := .failed, error := some e }
    let t2 := putById (·.id) t1 meta2
    (.error e, { st with comicDownloads := t2 }, 1)

/-- `downloadComic(comic)` (dexieDB.ts lines 243-315): return the cached
record when one exists with status `completed` and a populated blob,
otherwise run the download body. -/
def downloadComic (env : FetchEnv) (st : DBState) (comic : ComicRef) :
    Except String ComicDownloadMetadata × DBState × Nat :=
  match getById (·.id) st.comicDownloads comic.id with
  | some m =>
    if m.status = .completed ∧ m.data.isSome then (.ok m, st, 0)
    else performDownload env st comic
  | none => performDownload env st comic

/-- `preloadComic(comic)` (dexieDB.ts lines 341-345): fire `downloadComic`
and swallow its rejection (`.catch(error => console.error(...))`); the caller
always gets a resolved promise. -/
def preloadComic (env : FetchEnv) (st : DBState) (comic : ComicRef) :
    Except String Unit × DBState × Nat :=
  let r := downloadComic env st comic
  (.ok (), r.2.1, r.2.2)

/-! ## C1: download idempotence -/

theorem downloadComic_ok_completed (env : FetchEnv) (st : DBState) (comic : ComicRef)
    (m : ComicDownloadMetadata) (h : (downloadComic env st comic).1 = .ok m) :
    m.status = .completed ∧ m.data.isSome := by
  have hperform : (performDownload env st comic).1 = .ok m →
      m.status = .completed ∧ m.data.isSome := by
    intro hp
    unfold performDownload at hp
    cases hfe : env.fetch with
    | ok v =>
      rw [hfe] at hp
      obtain ⟨cl, blob⟩ := v
      cases hp
      exact ⟨rfl, rfl⟩
    | error e =>
      rw [hfe] at hp
      cases hp
  unfold downloadComic at h
  split at h
  · split at h
    · rename_i hc
      cases h
      exact hc
    · exact hperform h
  · exact hperform h

/-- **C1.** If `downloadComic(comic)` is called when a record for `comic.id`
already exists with status `completed` and a populated blob, the call returns
that cached record unchanged — same state, zero network fetches; moreover
every successful download leaves a `completed` record with a blob, so calling
download twice in a row (while the record is still in the table) returns the
same record — hence the same blob — with no second fetch. -/
theorem claim_C1 :
    (∀ (env : FetchEnv) (st : DBState) (comic : ComicRef) (m : ComicDownloadMetadata),
        getById (·.id) st.comicDownloads comic.id = some m →
        m.status = .completed → m.data.isSome →
        downloadComic env st comic = (.ok m, st, 0)) ∧
    (∀ (env env' : FetchEnv) (st st' : DBState) (comic : ComicRef)
        (m : ComicDownloadMetadata) (k : Nat),
        downloadComic env st comic = (.ok m, st', k) →
        getById (·.id) st'.comicDownloads comic.id = some m →
        downloadComic env' st' comic = (.ok m, st', 0)) := by
  have hbase : ∀ (env : FetchEnv) (st : DBState) (comic : ComicRef)
      (m : ComicDownloadMetadata),
      getById (·.id) st.comicDownloads comic.id = some m →
      m.status = .completed → m.data.isSome →
      downloadComic env st comic = (.ok m, st, 0) := by
    intro env st comic m hget hst hdata
    unfold downloadComic
    simp only [hget]
    rw [if_pos ⟨hst, hdata⟩]
  refine ⟨hbase, ?_⟩
  intro env env' st st' comic m k h1 hmem
  have hok : (downloadComic env st comic).1 = .ok m := by rw [h1]
  obtain ⟨hst, hdata⟩ := downloadComic_ok_completed env st comic m hok
  exact hbase env' st' comic m hmem hst hdata

/-- Witness for C1: a concrete cached record is returned unchanged. -/
theorem claim_C1_witness :
    downloadComic ⟨.error "offline", 99⟩
        ⟨none, [], [⟨"c", "u", .completed, 100, some 5, none, some "BLOB", some 4⟩]⟩
        ⟨"c", "u"⟩
      = (.ok ⟨"c", "u", .completed, 100, some 5, none, some "BLOB", some 4⟩,
          ⟨none, [], [⟨"c", "u", .completed, 100, some 5, none, some "BLOB", some 4⟩]⟩, 0) :=
  claim_C1.1 ⟨.error "offline", 99⟩
    ⟨none, [], [⟨"c", "u", .completed, 100, some 5, none, some "BLOB", some 4⟩]⟩
    ⟨"c", "u"⟩ ⟨"c", "u", .completed, 100, some 5, none, some "BLOB", some 4⟩
    (by rfl) (by rfl) (by rfl)

/-! ## C9: preload never surfaces a failure -/

/-- **C9.** `preloadComic` resolves regardless of whether the underlying
download succeeds or fails: its result value is always `ok ()`, its state is
exactly the state the download engine left behind, and a failed underlying
fetch is recorded in the download table as a `failed` record rather than
propagated. -/
theorem claim_C9 :
    (∀ (env : FetchEnv) (st : DBState) (comic : ComicRef),
        (preloadComic env st comic).1 = .ok ()) ∧
    (∀ (env : FetchEnv) (st : DBState) (comic : ComicRef),
        (preloadComic env st comic).2 = (downloadComic env st comic).2) ∧
    (∀ (env : FetchEnv) (st : DBState) (comic : ComicRef) (e : String),
        env.fetch = .error e →
        getById (·.id) st.comicDownloads comic.id = none →
        getById (·.id) (preloadComic env st comic).2.1.comicDownloads comic.id
          = some { id := comic.id, url := comic.url, status := .failed, progress := 0,
                   error := some e }) := by
  refine ⟨fun env st comic => rfl, fun env st comic => rfl, ?_⟩
  intro env st comic e hfe hget
  show getById (fun r : ComicDownloadMetadata => r.id)
      (downloadComic env st comic).2.1.comicDownloads comic.id
    = some { id := comic.id, url := comic.url, status := .failed, progress := 0,
             error := some e }
  unfold downloadComic
  simp only [hget]
  unfold performDownload
  rw [hfe]
  exact getById_putById_self (fun r : ComicDownloadMetadata => r.id) _ _

/-- Witness for C9: a concrete failed preload resolves and records the failure. -/
theorem claim_C9_witness :
    getById (·.id)
        (preloadComic ⟨.error "boom", 7⟩ ⟨none, [], []⟩ ⟨"c", "u"⟩).2.1.comicDownloads "c"
      = some { id := "c", url := "u", status := .failed, progress := 0, error := some "boom" } :=
  claim_C9.2.2 ⟨.error "boom", 7⟩ ⟨none, [], []⟩ ⟨"c", "u"⟩ "boom" (by rfl) (by rfl)

/-! ## C2: cache-limit enforcement -/

/-- The records `enforceComicLimit` deletes when over the limit: the first
`completed.length - 10` entries of the completed records sorted ascending by
completion timestamp. -/
def evictionSet (t : List ComicDownloadMetadata) : List ComicDownloadMetadata :=
  (List.insertionSort dlLE (completedOf t)).take ((completedOf t).length - 10)

theorem beq_str_comm (a b : String) : (a == b) = (b == a) := by
  cases h : a == b
  · cases h2 : b == a
    · rfl
    · have hba : b = a := by simpa using h2
      subst hba
      simp at h
  · have hab : a = b := by simpa using h
    subst hab
    simp

theorem foldl_delete_eq_filter (ds t : List ComicDownloadMetadata) :
    ds.foldl (fun acc r => deleteById (·.id) acc r.id) t
      = t.filter (fun x => !(ds.any (fun r => r.id == x.id))) := by
  induction ds generalizing t with
  | nil => simp [deleteById]
  | cons d ds ih =>
    rw [List.foldl_cons, ih]
    unfold deleteById
    rw [List.filter_filter]
    congr 1
    funext x
    rw [List.any_cons, beq_str_comm x.id d.id]
    cases h1 : (d.id == x.id) <;>
      cases h2 : (ds.any (fun r => r.id == x.id)) <;> simp [h1, h2]

theorem enforce_eq_filter (t : List ComicDownloadMetadata)
    (h : (completedOf t).length > 10) :
    enforceComicLimit t
      = t.filter (fun x => !((evictionSet t).any (fun r => r.id == x.id))) := by
  simp only [enforceComicLimit, evictionSet]
  rw [if_pos h]
  exact foldl_delete_eq_filter _ _

theorem filter_take_append_drop {α : Type} (S : List α) (d : Nat) (p : α → Bool) :
    S.filter p = (S.take d).filter p ++ (S.drop d).filter p := by
  conv_lhs => rw [← List.take_append_drop d S]
  rw [List.filter_append]

theorem pairwise_take_drop {α : Type} {R : α → α → Prop} {S : List α} (d : Nat)
    (h : S.Pairwise R) : ∀ x ∈ S.take d, ∀ y ∈ S.drop d, R x y := by
  have h2 : (S.take d ++ S.drop d).Pairwise R := by
    rw [List.take_append_drop]; exact h
  exact fun x hx y hy => (List.pairwise_append.1 h2).2.2 x hx y hy

theorem disjoint_take_drop {α : Type} {S : List α} (d : Nat) (h : S.Nodup) :
    List.Disjoint (S.take d) (S.drop d) := by
  have h2 : (S.take d ++ S.drop d).Nodup := by
    rw [List.take_append_drop]; exact h
  exact List.disjoint_of_nodup_append h2

theorem enforceComicLimit_spec (t : List ComicDownloadMetadata)
    (hid : (t.map (·.id)).Nodup)
    (hts : (completedOf t).Pairwise
      (fun a b => a.downloadedAt.getD 0 ≠ b.downloadedAt.getD 0))
    (hcount : 10 < (completedOf t).length) :
    (completedOf (enforceComicLimit t)).length = 10 ∧
    (∀ r ∈ t, r.status ≠ .completed → r ∈ enforceComicLimit t) ∧
    (∀ r ∈ enforceComicLimit t, r ∈ t) ∧
    (∀ r ∈ t, r ∉ enforceComicLimit t →
      r.status = .completed ∧
      ∀ s ∈ enforceComicLimit t, s.status = .completed →
        r.downloadedAt.getD 0 < s.downloadedAt.getD 0) := by
  have hgt : (completedOf t).length > 10 := hcount
  have hperm : List.Perm (List.insertionSort dlLE (completedOf t)) (completedOf t) :=
    List.perm_insertionSort dlLE (completedOf t)
  have hsorted : List.Sorted dlLE (List.insertionSort dlLE (completedOf t)) :=
    List.sorted_insertionSort dlLE (completedOf t)
  have hnodup_t : t.Nodup := List.Nodup.of_map _ hid
  have hinj := List.inj_on_of_nodup_map hid
  have hnodup_completed : (completedOf t).Nodup := hnodup_t.filter _
  have hnodup_sorted : (List.insertionSort dlLE (completedOf t)).Nodup :=
    hperm.nodup_iff.2 hnodup_completed
  have hsub_sorted : ∀ x ∈ List.insertionSort dlLE (completedOf t), x ∈ t := by
    intro x hx
    exact (List.mem_filter.1 (hperm.subset hx)).1
  have hD_sub_sorted : evictionSet t ⊆ List.insertionSort dlLE (completedOf t) :=
    List.take_subset _ _
  have hD_sub_t : ∀ x ∈ evictionSet t, x ∈ t := fun x hx => hsub_sorted x (hD_sub_sorted hx)
  have hD_sub_C : ∀ x ∈ evictionSet t, x ∈ completedOf t :=
    fun x hx => hperm.subset (hD_sub_sorted hx)
  have hany_iff : ∀ x ∈ t,
      (((evictionSet t).any (fun r => r.id == x.id)) = true ↔ x ∈ evictionSet t) := by
    intro x hx
    constructor
    · intro h
      obtain ⟨r, hr, hrid⟩ := List.any_eq_true.1 h
      have hrid' : r.id = x.id := by simpa using hrid
      have : r = x := hinj (hD_sub_t r hr) hx hrid'
      rwa [this] at hr
    · intro h
      exact List.any_eq_true.2 ⟨x, h, by simp⟩
  have hmem_iff : ∀ x, (x ∈ enforceComicLimit t ↔
      x ∈ t ∧ ((evictionSet t).any (fun r => r.id == x.id)) = false) := by
    intro x
    rw [enforce_eq_filter t hgt, List.mem_filter]
    constructor
    · rintro ⟨h1, h2⟩
      exact ⟨h1, by simpa using h2⟩
    · rintro ⟨h1, h2⟩
      exact ⟨h1, by simp [h2]⟩
  refine ⟨?_, ?_, ?_, ?_⟩
  · -- exactly 10 completed records remain
    have hcomm : completedOf (enforceComicLimit t)
        = (completedOf t).filter
            (fun x => !((evictionSet t).any (fun r => r.id == x.id))) := by
      unfold completedOf
      rw [enforce_eq_filter t hgt, List.filter_filter, List.filter_filter]
      congr 1
      funext x
      cases h1 : (x.status == DownloadStatus.completed) <;>
        cases h2 : ((evictionSet t).any (fun r => r.id == x.id)) <;> simp [h1, h2]
    have hpermF : List.Perm
        ((completedOf t).filter
          (fun x => !((evictionSet t).any (fun r => r.id == x.id))))
        ((List.insertionSort dlLE (completedOf t)).filter
          (fun x => !((evictionSet t).any (fun r => r.id == x.id)))) :=
      (hperm.filter _).symm
    have hDfilter : (evictionSet t).filter
        (fun x => !((evictionSet t).any (fun r => r.id == x.id))) = [] := by
      rw [List.filter_eq_nil_iff]
      intro x hx
      have := (hany_iff x (hD_sub_t x hx)).2 hx
      simp [this]
    have hRfilter :
        ((List.insertionSort dlLE (completedOf t)).drop
            ((completedOf t).length - 10)).filter
          (fun x => !((evictionSet t).any (fun r => r.id == x.id)))
        = (List.insertionSort dlLE (completedOf t)).drop
            ((completedOf t).length - 10) := by
      rw [List.filter_eq_self]
      intro x hxR
      have hxT : x ∈ t := hsub_sorted x (List.drop_subset _ _ hxR)
      cases hca : ((evictionSet t).any (fun r => r.id == x.id))
      · simp
      · exfalso
        exact disjoint_take_drop _ hnodup_sorted ((hany_iff x hxT).1 hca) hxR
    have hDef : (List.insertionSort dlLE (completedOf t)).take
        ((completedOf t).length - 10) = evictionSet t := rfl
    rw [hcomm, hpermF.length_eq,
      filter_take_append_drop (List.insertionSort dlLE (completedOf t))
        ((completedOf t).length - 10), hDef, hDfilter, hRfilter]
    simp only [List.nil_append, List.length_drop, hperm.length_eq]
    exact Nat.sub_sub_self (Nat.le_of_lt hcount)
  · -- non-completed records are never deleted
    intro r hr hst
    apply (hmem_iff r).2
    refine ⟨hr, ?_⟩
    cases hca : ((evictionSet t).any (fun x => x.id == r.id))
    · rfl
    · exfalso
      have hrD := (hany_iff r hr).1 hca
      have := (List.mem_filter.1 (hD_sub_C r hrD)).2
      exact hst (by simpa using this)
  · -- the surviving table is a subset of the original
    exact fun r hr => ((hmem_iff r).1 hr).1
  · -- a deleted record is completed and older than every surviving completed one
    intro r hr hnot
    have hany : ((evictionSet t).any (fun x => x.id == r.id)) = true := by
      cases hca : ((evictionSet t).any (fun x => x.id == r.id))
      · exact absurd ((hmem_iff r).2 ⟨hr, hca⟩) hnot
      · rfl
    have hrD : r ∈ evictionSet t := (hany_iff r hr).1 hany
    have hrC : r ∈ completedOf t := hD_sub_C r hrD
    have hrP : r.status = .completed := by
      simpa using (List.mem_filter.1 hrC).2
    refine ⟨hrP, ?_⟩
    intro s hs hsP
    have hsT : s ∈ t := ((hmem_iff s).1 hs).1
    have hsany := ((hmem_iff s).1 hs).2
    have hsD : s ∉ evictionSet t := by
      intro hc
      rw [(hany_iff s hsT).2 hc] at hsany
      cases hsany
    have hsC : s ∈ completedOf t := List.mem_filter.2 ⟨hsT, by simp [hsP]⟩
    have hsS : s ∈ List.insertionSort dlLE (completedOf t) := hperm.mem_iff.2 hsC
    have hsR : s ∈ (List.insertionSort dlLE (completedOf t)).drop
        ((completedOf t).length - 10) := by
      rw [← List.take_append_drop ((completedOf t).length - 10)
        (List.insertionSort dlLE (completedOf t))] at hsS
      rcases List.mem_append.1 hsS with h | h
      · exact absurd h hsD
      · exact h
    have hle : dlLE r s := pairwise_take_drop _ hsorted r hrD s hsR
    have hne : r.downloadedAt.getD 0 ≠ s.downloadedAt.getD 0 := by
      have hrs : r ≠ s := by
        intro he
        rw [he] at hrD
        exact hsD hrD
      exact List.Pairwise.forall (fun x y h => h.symm) hts hrC hsC hrs
    exact Nat.lt_of_le_of_ne hle hne

/-- Eleven successive successful downloads of the distinct comics `c1`..`c11`
with completion timestamps 1..11, starting from an empty database. -/
def c2Run : DBState :=
  (List.range 11).foldl
    (fun st i =>
      (downloadComic ⟨.ok (100, (toString (i + 1) : Blob)), i + 1⟩ st
        ⟨"c" ++ toString (i + 1), "u" ++ toString (i + 1)⟩).2.1)
    ⟨none, [], []⟩

/-- **C2.** After every successful download, cache-limit enforcement runs;
whenever the number of `completed` download records exceeds 10, the records
with the smallest completion timestamps are deleted until exactly 10 remain,
and only `completed` records are deleted.  In particular, after 11 successful
downloads with capacity 10, exactly the single oldest-by-completion record is
removed and the 10 most recent remain. -/
theorem claim_C2 :
    (∀ t : List ComicDownloadMetadata,
        (t.map (·.id)).Nodup →
        (completedOf t).Pairwise
          (fun a b => a.downloadedAt.getD 0 ≠ b.downloadedAt.getD 0) →
        10 < (completedOf t).length →
        (completedOf (enforceComicLimit t)).length = 10 ∧
        (∀ r ∈ t, r.status ≠ .completed → r ∈ enforceComicLimit t) ∧
        (∀ r ∈ enforceComicLimit t, r ∈ t) ∧
        (∀ r ∈ t, r ∉ enforceComicLimit t →
          r.status = .completed ∧
          ∀ s ∈ enforceComicLimit t, s.status = .completed →
            r.downloadedAt.getD 0 < s.downloadedAt.getD 0)) ∧
    (∀ (env : FetchEnv) (st : DBState) (comic : ComicRef) (cl : Nat) (b : Blob),
        getById (·.id) st.comicDownloads comic.id = none →
        env.fetch = .ok (cl, b) →
        (downloadComic env st comic).2.1.comicDownloads
          = enforceComicLimit (putById (·.id) (putById (·.id) (putById (·.id)
              st.comicDownloads
              ⟨comic.id, comic.url, .in_progress, 0, none, none, none, none⟩)
              ⟨comic.id, comic.url, .in_progress, 1, none, none, none, some cl⟩)
              ⟨comic.id, comic.url, .completed, 100, some env.now, none, some b, some cl⟩)) ∧
    (c2Run.comicDownloads.map (·.id)
        = ["c2", "c3", "c4", "c5", "c6", "c7", "c8", "c9", "c10", "c11"] ∧
      c2Run.comicDownloads.all (fun r => r.status == .completed) = true) := by
  refine ⟨enforceComicLimit_spec, ?_, by constructor <;> rfl⟩
  intro env st comic cl b hget hfe
  unfold downloadComic
  simp only [hget]
  unfold performDownload
  rw [hfe]

/-- Witness for C2: an eleven-record completed table is cut back to ten. -/
theorem claim_C2_witness :
    (completedOf (enforceComicLimit
        ((List.range 11).map (fun i =>
          ⟨"d" ++ toString i, "u", .completed, 100, some i, none, some "B", some 1⟩)))).length
      = 10 :=
  (claim_C2.1
    ((List.range 11).map (fun i =>
      ⟨"d" ++ toString i, "u", .completed, 100, some i, none, some "B", some 1⟩))
    (by decide) (by decide) (by decide)).1

/-! ## Name comparators and `sortFolderContents` (dexieDB.ts lines 476-489)

JavaScript's `Array.prototype.sort` with a numeric comparator is a stable
ascending sort; it is modelled by `List.insertionSort` over the relation
`cmp a b ≤ 0`, which is stable.  Plain `a.localeCompare(b)` under the default
collation coincides with code-point lexicographic comparison on the ASCII
alphanumeric names at issue here; `localeCompare` with
`{numeric: true, sensitivity: "base"}` additionally compares digit runs by
their numeric value. -/

/-- The `name` field shared by files and folders. -/
def ContentItem.name : ContentItem → String
  | .file _ n _ _ _ _ _ _ => n
  | .folder _ n _ => n

/-- Code-point lexicographic comparison of character sequences. -/
def lexCompareChars : List Char → List Char → Int
  | [], [] => 0
  | [], _ :: _ => -1
  | _ :: _, [] => 1
  | a :: as, b :: bs =>
    if a = b then lexCompareChars as bs else if a < b then -1 else 1

/-- Model of plain `a.localeCompare(b)` on ASCII alphanumeric names. -/
def localeCompare (a b : String) : Int :=
  lexCompareChars a.toList b.toList

/-- JavaScript `array.sort(cmp)`: stable ascending sort by a numeric
comparator. -/
def jsSortBy {α : Type} (cmp : α → α → Int) (l : List α) : List α :=
  List.insertionSort (fun a b => cmp a b ≤ 0) l

mutual

/-- Recursive part of `sortFolderContents`: sort the children of every
folder.  The source sorts a list first and then recurses into the folders it
contains; because recursion changes no names, sorting after the recursion
computes the same list and keeps the recursion structural. -/
def sortContentItem : ContentItem → ContentItem
  | .file i n s rs lp tp e l => .file i n s rs lp tp e l
  | .folder i n cs =>
    .folder i n (jsSortBy (fun a b => localeCompare a.name b.name) (sortEach cs))

/-- `items.forEach(...)` of `sortFolderContents`. -/
def sortEach : List ContentItem → List ContentItem
  | [] => []
  | c :: cs => sortContentItem c :: sortEach cs

end

/-- `sortFolderContents(data)` (dexieDB.ts lines 476-489):
`items.sort((a, b) => a.name.localeCompare(b.name))` at every level of the
tree, top level included. -/
def sortFolderContents (data : List ContentItem) : List ContentItem :=
  jsSortBy (fun a b => localeCompare a.name b.name) (sortEach data)

/-! ## Numeric-aware comparison (getComics.ts lines 117-121) -/

/-- A maximal digit run (read as a number) or a single other character. -/
inductive NameToken where
  | num (n : Nat)
  | ch (c : Char)
deriving Repr, DecidableEq

/-- Numeric value of an ASCII digit. -/
def digitVal (c : Char) : Nat := c.toNat - 48

mutual

/-- Tokenize a name into digit runs and single characters. -/
def tokenizeName : List Char → List NameToken
  | [] => []
  | c :: cs => if c.isDigit then tokenizeNum (digitVal c) cs else .ch c :: tokenizeName cs

/-- Accumulate a digit run. -/
def tokenizeNum (acc : Nat) : List Char → List NameToken
  | [] => [.num acc]
  | c :: cs =>
    if c.isDigit then tokenizeNum (acc * 10 + digitVal c) cs
    else .num acc :: .ch c :: tokenizeName cs

end

/-- Lexicographic comparison of token sequences; digit runs compare by
numeric value, and a digit run compares against a non-digit character the way
the code points compare (digits sit between punctuation and letters). -/
def tokensCompare : List NameToken → List NameToken → Int
  | [], [] => 0
  | [], _ :: _ => -1
  | _ :: _, [] => 1
  | a :: as, b :: bs =>
    match a, b with
    | .num x, .num y => if x < y then -1 else if y < x then 1 else tokensCompare as bs
    | .ch c, .ch d => if c = d then tokensCompare as bs else if c < d then -1 else 1
    | .num _, .ch d => if d < '0' then 1 else -1
    | .ch c, .num _ => if c < '0' then -1 else 1

/-- Model of `a.localeCompare(b, undefined, {numeric: true, sensitivity:
"base"})` on ASCII names: digit runs compare by numeric value. -/
def localeCompareNumeric (a b : String) : Int :=
  tokensCompare (tokenizeName a.toList) (tokenizeName b.toList)

/-- `FileLink` (getComics.ts lines 2-5). -/
structure FileLink where
  name : String
  url : String
deriving Repr, DecidableEq

/-- The file sort inside `listFiles` (getComics.ts lines 117-121):
`files.sort((a, b) => a.name.localeCompare(b.name, undefined, {numeric:
true, sensitivity: "base"}))`. -/
def sortFileLinks (files : List FileLink) : List FileLink :=
  jsSortBy (fun a b => localeCompareNumeric a.name b.name) files

/-- The three-file listing of the specification's natural-sort example,
as tree nodes. -/
def c4Tree : List ContentItem :=
  [.file "a" "page2.jpg" 0 .unread 0 0 "jpg" "",
   .file "b" "page10.jpg" 0 .unread 0 0 "jpg" "",
   .file "c" "page1.jpg" 0 .unread 0 0 "jpg" ""]

/-- **C4, counterexample.**  The claim states that the recursive sort of the
fetched content tree (`sortFolderContents`) is numeric-aware; but
`sortFolderContents` compares with plain `localeCompare`, so on the input
`["page2.jpg", "page10.jpg", "page1.jpg"]` it produces
`page1, page10, page2` — not the claimed `page1, page2, page10`. -/
theorem claim_C4_counterexample :
    (sortFolderContents c4Tree).map ContentItem.name
        = ["page1.jpg", "page10.jpg", "page2.jpg"] ∧
    (sortFolderContents c4Tree).map ContentItem.name
        ≠ ["page1.jpg", "page2.jpg", "page10.jpg"] :=
  ⟨rfl, by decide⟩

/-- **C4, amended.**  The scraped file lists (`listFiles`) sort with the
numeric-aware comparator, so `["page2.jpg", "page10.jpg", "page1.jpg"]`
sorts to `page1, page2, page10` and `"page10"` sorts after `"page2"`; the
recursive sort of the fetched content tree (`sortFolderContents`) instead
uses plain lexicographic `localeCompare`, under which `"page10"` sorts
before `"page2"`. -/
theorem claim_C4 :
    (sortFileLinks [⟨"page2.jpg", "u2"⟩, ⟨"page10.jpg", "u10"⟩, ⟨"page1.jpg", "u1"⟩]).map
        FileLink.name
      = ["page1.jpg", "page2.jpg", "page10.jpg"] ∧
    localeCompareNumeric "page2.jpg" "page10.jpg" < 0 ∧
    (sortFolderContents c4Tree).map ContentItem.name
      = ["page1.jpg", "page10.jpg", "page2.jpg"] ∧
    localeCompare "page10.jpg" "page2.jpg" < 0 :=
  ⟨rfl, by decide, rfl, by decide⟩

/-! ## Remote-manifest parsing (dexieDB.ts lines 179-237) -/

/-- The value stored under a key of the fetched JSON object.  An array of
content nodes is the only shape the code ever reads further; every other
JSON value is summarized by `str` (needed for the `type === "folder"` test)
and `other`. -/
inductive JsonField where
  | items (xs : List ContentItem)
  | str (s : String)
  | other

/-- The parsed remote manifest (`rawData = await response.json()`):
a JSON array of nodes, a non-null JSON object, or any other JSON value
(`null`, string, number, boolean — all of which fail the
`rawData && typeof rawData === "object"` test). -/
inductive RemoteRaw where
  | jarray (items : List ContentItem)
  | jobject (fields : List (String × JsonField))
  | jprim

/-- `rawData.type === "folder"`. -/
def isFolderType : Option JsonField → Bool
  | some (.str s) => s == "folder"
  | _ => false

/-- The shape dispatch of `updateFromRemoteDB` (dexieDB.ts lines 189-207):
a bare array is taken as is; an object with a `children` key and
`type === "folder"` yields its `children` value; otherwise an object with a
`content` key yields its `content` value; everything else raises the format
error.  The subsequent `as ContentItem[]` casts are unchecked, so the
extracted value is returned raw. -/
def extractRemoteData : RemoteRaw → Except String JsonField
  | .jarray items => .ok (.items items)
  | .jobject fields =>
    match List.lookup "children" fields with
    | some cv =>
      if isFolderType (List.lookup "type" fields) then .ok cv
      else
        match List.lookup "content" fields with
        | some cv2 => .ok cv2
        | none => .error "Invalid data format from remote API"
    | none =>
      match List.lookup "content" fields with
      | some cv2 => .ok cv2
      | none => .error "Invalid data format from remote API"
  | .jprim => .error "Invalid data format from remote API"

/-- The unchecked `as ContentItem[]` cast: when the extracted value is not
an array, the later `data.forEach(...)` throws a `TypeError`, which the
surrounding `catch` of `updateFromRemoteDB` handles like any other failure
of the `try` block. -/
def castItems : JsonField → Except String (List ContentItem)
  | .items xs => .ok xs
  | _ => .error "TypeError"

/-- The remote side of a sync attempt: the combined outcome of `fetch`,
the `response.ok` check and `response.json()`. -/
structure RemoteEnv where
  remote : Except String RemoteRaw

/-- The `try` block of `updateFromRemoteDB` (dexieDB.ts lines 180-227):
fetch and parse the manifest, extract the node list, overlay the local
progress, sort, persist the merged tree (`storeComicsData` is
clear-then-write on the single-row snapshot) and return it. -/
def updateFromRemoteDBTry (env : RemoteEnv) (st : DBState) :
    Except String (List ContentItem × DBState) :=
  match env.remote with
  | .error e => .error e
  | .ok raw =>
    match extractRemoteData raw with
    | .error e => .error e
    | .ok field =>
      match castItems field with
      | .error e => .error e
      | .ok data =>
        let data2 := sortFolderContents (updateStatusInData data (statusMapOf st.readComics))
        .ok (data2, { st with comicsRoot := some data2 })

/-- `updateFromRemoteDB()` (dexieDB.ts lines 179-237): on any failure of the
`try` block, fall back to the locally persisted tree when one exists,
otherwise re-throw. -/
def updateFromRemoteDB (env : RemoteEnv) (st : DBState) :
    Except String (List ContentItem) × DBState :=
  match updateFromRemoteDBTry env st with
  | .ok (d, st') => (.ok d, st')
  | .error e =>
    match getComicsData st with
    | some localData => (.ok localData, st)
    | none => (.error e, st)

/-- **C5.** For every remote-sync attempt: if the remote fetch or parse of
the manifest fails, the sync returns the last locally persisted content tree
(annotated with the current progress, which is how the tree is always read
back) and leaves the state unchanged when such a tree exists, and propagates
the error to the caller only when no local tree exists; a successful local
fallback never rejects. -/
theorem claim_C5 :
    (∀ (env : RemoteEnv) (st : DBState) (e : String) (c : List ContentItem),
        updateFromRemoteDBTry env st = .error e →
        st.comicsRoot = some c →
        updateFromRemoteDB env st
          = (.ok (updateStatusInData c (statusMapOf st.readComics)), st)) ∧
    (∀ (env : RemoteEnv) (st : DBState) (e : String),
        updateFromRemoteDBTry env st = .error e →
        st.comicsRoot = none →
        updateFromRemoteDB env st = (.error e, st)) := by
  constructor
  · intro env st e c htry hroot
    unfold updateFromRemoteDB
    simp only [htry]
    unfold getComicsData
    simp only [hroot]
  · intro env st e htry hroot
    unfold updateFromRemoteDB
    simp only [htry]
    unfold getComicsData
    simp only [hroot]

/-- Witness for C5: a failed fetch with a persisted (empty) tree falls back
to it. -/
theorem claim_C5_witness :
    updateFromRemoteDB ⟨.error "network"⟩ ⟨some [], [], []⟩ = (.ok [], ⟨some [], [], []⟩) :=
  claim_C5.1 ⟨.error "network"⟩ ⟨some [], [], []⟩ "network" [] (by rfl) (by rfl)

/-- **C6.** Remote-manifest parsing accepts exactly three input shapes —
(a) a bare array of top-level nodes, (b) an object with a `children` key
whose `type` is `"folder"`, (c) an object holding a `content` value — and
raises the format error for every other input; the extracted value is
respectively the array itself, the `children` value, and the `content`
value. -/
theorem claim_C6 :
    (∀ xs, extractRemoteData (.jarray xs) = .ok (.items xs)) ∧
    (∀ fields cv, List.lookup "children" fields = some cv →
        isFolderType (List.lookup "type" fields) = true →
        extractRemoteData (.jobject fields) = .ok cv) ∧
    (∀ fields cv,
        (List.lookup "children" fields = none ∨
          isFolderType (List.lookup "type" fields) = false) →
        List.lookup "content" fields = some cv →
        extractRemoteData (.jobject fields) = .ok cv) ∧
    (∀ fields,
        (List.lookup "children" fields = none ∨
          isFolderType (List.lookup "type" fields) = false) →
        List.lookup "content" fields = none →
        extractRemoteData (.jobject fields) = .error "Invalid data format from remote API") ∧
    (extractRemoteData .jprim = .error "Invalid data format from remote API") := by
  refine ⟨fun xs => rfl, ?_, ?_, ?_, rfl⟩
  · intro fields cv hch hty
    unfold extractRemoteData
    simp only [hch, hty, if_true]
  · intro fields cv hcond hco
    unfold extractRemoteData
    rcases hcond with h | h
    · simp only [h, hco]
    · cases hch : List.lookup "children" fields with
      | some cv0 => simp only [hch, h, hco, Bool.false_eq_true, if_false]
      | none => simp only [hch, hco]
  · intro fields hcond hco
    unfold extractRemoteData
    rcases hcond with h | h
    · simp only [h, hco]
    · cases hch : List.lookup "children" fields with
      | some cv0 => simp only [hch, h, hco, Bool.false_eq_true, if_false]
      | none => simp only [hch, hco]

/-- Witness for C6: the accepted root-folder shape, concretely. -/
theorem claim_C6_witness :
    extractRemoteData (.jobject [("children", .items []), ("type", .str "folder")])
      = .ok (.items []) :=
  claim_C6.2.1 [("children", .items []), ("type", .str "folder")] (.items [])
    (by rfl) (by rfl)

/-! ## Lookup of a file node by id (depth-first, first match)

This is the id lookup used by the tree claims: the first file node in
depth-first order carrying the id — the same traversal order in which
`updateStatusForId` locates its target. -/

mutual

/-- DFS search of a single item for the file with the given id. -/
def findFileInItem (id : String) : ContentItem → Option ContentItem
  | .file fid n s rs lp tp e l =>
    if fid == id then some (.file fid n s rs lp tp e l) else none
  | .folder _ _ cs => findFileInList id cs

/-- DFS search of a forest for the file with the given id. -/
def findFileInList (id : String) : List ContentItem → Option ContentItem
  | [] => none
  | c :: cs =>
    match findFileInItem id c with
    | some f => some f
    | none => findFileInList id cs

end

/-- `lastPage` of a file node (0 for folders). -/
def fileLastPage : ContentItem → Nat
  | .file _ _ _ _ lp _ _ _ => lp
  | .folder _ _ _ => 0

/-- `totalPages` of a file node (0 for folders). -/
def fileTotalPages : ContentItem → Nat
  | .file _ _ _ _ _ tp _ _ => tp
  | .folder _ _ _ => 0

/-- The field rewrite `updateStatusForId` applies to its target file node. -/
def setFileFields (item : ContentItem) (status : ReadStatus) (lastPage : Nat)
    (totalPages : Option Nat) : ContentItem :=
  match item with
  | .file i n s _ _ tp0 e l => .file i n s status lastPage (totalPages.getD tp0) e l
  | x => x

mutual

/-- The structural skeleton of an item: everything except the per-file
progress fields (readStatus, lastPage, totalPages). -/
def skelItem : ContentItem → ContentItem
  | .file i n s _ _ _ e l => .file i n s .unread 0 0 e l
  | .folder i n cs => .folder i n (skelList cs)

/-- Skeleton of a forest. -/
def skelList : List ContentItem → List ContentItem
  | [] => []
  | c :: cs => skelItem c :: skelList cs

end

theorem lookup_mem {β : Type} (m : List (String × β)) (k : String) (v : β)
    (h : List.lookup k m = some v) : (k, v) ∈ m := by
  induction m with
  | nil => cases h
  | cons p ps ih =>
    rw [List.lookup_cons] at h
    cases hk : (k == p.1)
    · simp only [hk] at h
      exact List.mem_cons_of_mem _ (ih h)
    · simp only [hk] at h
      cases h
      have hkp : k = p.1 := by simpa using hk
      have hp : (k, p.2) = p := by
        rw [hkp]
      rw [hp]
      exact List.mem_cons_self _ _

mutual

theorem flag_eq_item (id : String) (status : ReadStatus) (lp : Nat) (tp : Option Nat) :
    (item : ContentItem) →
      (updateItemForId id status lp tp item).2 = (findFileInItem id item).isSome
  | .file fid n s rs lp0 tp0 e l => by
    unfold updateItemForId findFileInItem
    cases h : (fid == id) <;> simp [h]
  | .folder fid n cs => by
    unfold updateItemForId findFileInItem
    exact flag_eq_list id status lp tp cs

theorem flag_eq_list (id : String) (status : ReadStatus) (lp : Nat) (tp : Option Nat) :
    (l : List ContentItem) →
      (updateChildrenForId id status lp tp l).2 = (findFileInList id l).isSome
  | [] => rfl
  | c :: cs => by
    unfold updateChildrenForId findFileInList
    have hc := flag_eq_item id status lp tp c
    cases h : findFileInItem id c with
    | some f =>
      rw [h] at hc
      simp only [Option.isSome_some] at hc
      simp [hc]
    | none =>
      rw [h] at hc
      simp only [Option.isSome_none] at hc
      simp [hc, flag_eq_list id status lp tp cs]

end

mutual

theorem update_id_item (id : String) (status : ReadStatus) (lp : Nat) (tp : Option Nat) :
    (item : ContentItem) → findFileInItem id item = none →
      (updateItemForId id status lp tp item).1 = item
  | .file fid n s rs lp0 tp0 e l => by
    intro h
    unfold findFileInItem at h
    unfold updateItemForId
    cases hf : (fid == id)
    · simp [hf]
    · rw [if_pos hf] at h
      cases h
  | .folder fid n cs => by
    intro h
    unfold findFileInItem at h
    unfold updateItemForId
    simp only []
    rw [update_id_list id status lp tp cs h]

theorem update_id_list (id : String) (status : ReadStatus) (lp : Nat) (tp : Option Nat) :
    (l : List ContentItem) → findFileInList id l = none →
      (updateChildrenForId id status lp tp l).1 = l
  | [] => fun _ => rfl
  | c :: cs => by
    intro h
    unfold findFileInList at h
    cases hc : findFileInItem id c with
    | some f => rw [hc] at h; cases h
    | none =>
      rw [hc] at h
      unfold updateChildrenForId
      have hflag := flag_eq_item id status lp tp c
      rw [hc] at hflag
      simp only [Option.isSome_none] at hflag
      simp only [hflag, Bool.false_eq_true, if_false]
      rw [update_id_item id status lp tp c hc, update_id_list id status lp tp cs h]

end

mutual

theorem find_update_other_item (id id2 : String) (status : ReadStatus) (lp : Nat)
    (tp : Option Nat) (hne : id2 ≠ id) :
    (item : ContentItem) →
      findFileInItem id2 (updateItemForId id status lp tp item).1 = findFileInItem id2 item
  | .file fid n s rs lp0 tp0 e l => by
    unfold updateItemForId
    cases hf : (fid == id)
    · simp [hf]
    · have hfid : fid = id := by simpa using hf
      have h2 : (fid == id2) = false := by
        rw [hfid]
        simpa using fun he => hne he.symm
      simp [hf, findFileInItem, h2]
  | .folder fid n cs => by
    unfold updateItemForId
    simp only []
    unfold findFileInItem
    exact find_update_other_list id id2 status lp tp hne cs

theorem find_update_other_list (id id2 : String) (status : ReadStatus) (lp : Nat)
    (tp : Option Nat) (hne : id2 ≠ id) :
    (l : List ContentItem) →
      findFileInList id2 (updateChildrenForId id status lp tp l).1 = findFileInList id2 l
  | [] => rfl
  | c :: cs => by
    unfold updateChildrenForId
    cases hflag : (updateItemForId id status lp tp c).2
    · simp only [hflag, Bool.false_eq_true, if_false]
      unfold findFileInList
      rw [find_update_other_item id id2 status lp tp hne c]
      cases hc : findFileInItem id2 c
      · exact find_update_other_list id id2 status lp tp hne cs
      · rfl
    · simp only [hflag, if_true]
      unfold findFileInList
      rw [find_update_other_item id id2 status lp tp hne c]

end

mutual

theorem find_update_self_item (id : String) (status : ReadStatus) (lp : Nat)
    (tp : Option Nat) :
    (item : ContentItem) → ∀ f, findFileInItem id item = some f →
      findFileInItem id (updateItemForId id status lp tp item).1
        = some (setFileFields f status lp tp)
  | .file fid n s rs lp0 tp0 e l => by
    intro f hf
    unfold findFileInItem at hf
    cases hfid : (fid == id)
    · rw [if_neg (by simp [hfid])] at hf
      cases hf
    · rw [if_pos (by simp [hfid])] at hf
      cases hf
      unfold updateItemForId
      simp [hfid, findFileInItem, setFileFields]
  | .folder fid n cs => by
    intro f hf
    unfold findFileInItem at hf
    unfold updateItemForId
    simp only []
    unfold findFileInItem
    exact find_update_self_list id status lp tp cs f hf

theorem find_update_self_list (id : String) (status : ReadStatus) (lp : Nat)
    (tp : Option Nat) :
    (l : List ContentItem) → ∀ f, findFileInList id l = some f →
      findFileInList id (updateChildrenForId id status lp tp l).1
        = some (setFileFields f status lp tp)
  | [] => by
    intro f hf
    cases hf
  | c :: cs => by
    intro f hf
    unfold findFileInList at hf
    have hflag := flag_eq_item id status lp tp c
    cases hc : findFileInItem id c with
    | some f0 =>
      rw [hc] at hf
      cases hf
      rw [hc] at hflag
      simp only [Option.isSome_some] at hflag
      unfold updateChildrenForId
      simp only [hflag, if_true]
      unfold findFileInList
      rw [find_update_self_item id status lp tp c f hc]
    | none =>
      rw [hc] at hf
      rw [hc] at hflag
      simp only [Option.isSome_none] at hflag
      unfold updateChildrenForId
      simp only [hflag, Bool.false_eq_true, if_false]
      unfold findFileInList
      rw [update_id_item id status lp tp c hc, hc]
      exact find_update_self_list id status lp tp cs f hf

end

mutual

theorem skel_update_item (id : String) (status : ReadStatus) (lp : Nat) (tp : Option Nat) :
    (item : ContentItem) → skelItem (updateItemForId id status lp tp item).1 = skelItem item
  | .file fid n s rs lp0 tp0 e l => by
    unfold updateItemForId
    cases hf : (fid == id) <;> simp [hf, skelItem]
  | .folder fid n cs => by
    unfold updateItemForId
    simp only []
    unfold skelItem
    rw [skel_update_list id status lp tp cs]

theorem skel_update_list (id : String) (status : ReadStatus) (lp : Nat) (tp : Option Nat) :
    (l : List ContentItem) → skelList (updateChildrenForId id status lp tp l).1 = skelList l
  | [] => rfl
  | c :: cs => by
    unfold updateChildrenForId
    cases hflag : (updateItemForId id status lp tp c).2
    · simp only [hflag, Bool.false_eq_true, if_false]
      unfold skelList
      rw [skel_update_item id status lp tp c, skel_update_list id status lp tp cs]
    · simp only [hflag, if_true]
      unfold skelList
      rw [skel_update_item id status lp tp c]

end

/-! ## `updateStatusForId` at the top level (the `data.forEach`) -/

theorem find_updateStatusForId_self (data : List ContentItem) (id : String)
    (status : ReadStatus) (lp : Nat) (tp : Option Nat) (f : ContentItem)
    (hf : findFileInList id data = some f) :
    findFileInList id (updateStatusForId data id status lp tp)
      = some (setFileFields f status lp tp) := by
  induction data with
  | nil => cases hf
  | cons c cs ih =>
    unfold findFileInList at hf
    unfold updateStatusForId
    rw [List.map_cons]
    unfold findFileInList
    cases hc : findFileInItem id c with
    | some f0 =>
      rw [hc] at hf
      cases hf
      rw [find_update_self_item id status lp tp c f hc]
    | none =>
      rw [hc] at hf
      rw [update_id_item id status lp tp c hc, hc]
      exact ih hf

theorem find_updateStatusForId_other (data : List ContentItem) (id id2 : String)
    (status : ReadStatus) (lp : Nat) (tp : Option Nat) (hne : id2 ≠ id) :
    findFileInList id2 (updateStatusForId data id status lp tp)
      = findFileInList id2 data := by
  induction data with
  | nil => rfl
  | cons c cs ih =>
    unfold updateStatusForId at *
    rw [List.map_cons]
    unfold findFileInList
    rw [find_update_other_item id id2 status lp tp hne c]
    cases hc : findFileInItem id2 c
    · exact ih
    · rfl

theorem skel_updateStatusForId (data : List ContentItem) (id : String)
    (status : ReadStatus) (lp : Nat) (tp : Option Nat) :
    skelList (updateStatusForId data id status lp tp) = skelList data := by
  induction data with
  | nil => rfl
  | cons c cs ih =>
    unfold updateStatusForId at *
    rw [List.map_cons]
    unfold skelList
    rw [skel_update_item id status lp tp c, ih]

/-! ## C8: the `lastPage ≤ totalPages` invariant under annotation -/

mutual

theorem annotate_inv_item (m : StatusMap)
    (hm : ∀ p ∈ m, 0 < p.2.totalPages → p.2.lastPage ≤ p.2.totalPages) :
    (item : ContentItem) → ∀ (id : String) (f : ContentItem),
      findFileInItem id (annotateItem m item) = some f →
      0 < fileTotalPages f → fileLastPage f ≤ fileTotalPages f
  | .file fid n s rs lp tp e l => by
    intro id f hf htp
    unfold annotateItem at hf
    cases hlk : StatusMap.lookup m fid with
    | some info =>
      rw [hlk] at hf
      unfold findFileInItem at hf
      cases hfid : (fid == id)
      · rw [if_neg (by simp [hfid])] at hf
        cases hf
      · rw [if_pos (by simp [hfid])] at hf
        cases hf
        exact hm (fid, info) (lookup_mem m fid info hlk) htp
    | none =>
      rw [hlk] at hf
      unfold findFileInItem at hf
      cases hfid : (fid == id)
      · rw [if_neg (by simp [hfid])] at hf
        cases hf
      · rw [if_pos (by simp [hfid])] at hf
        cases hf
        cases htp
  | .folder fid n cs => by
    intro id f hf htp
    unfold annotateItem at hf
    unfold findFileInItem at hf
    exact annotate_inv_list m hm cs id f hf htp

theorem annotate_inv_list (m : StatusMap)
    (hm : ∀ p ∈ m, 0 < p.2.totalPages → p.2.lastPage ≤ p.2.totalPages) :
    (l : List ContentItem) → ∀ (id : String) (f : ContentItem),
      findFileInList id (annotateList m l) = some f →
      0 < fileTotalPages f → fileLastPage f ≤ fileTotalPages f
  | [] => by
    intro id f hf
    cases hf
  | c :: cs => by
    intro id f hf htp
    unfold annotateList at hf
    unfold findFileInList at hf
    cases hc : findFileInItem id (annotateItem m c) with
    | some f0 =>
      rw [hc] at hf
      cases hf
      exact annotate_inv_item m hm c id f hc htp
    | none =>
      rw [hc] at hf
      exact annotate_inv_list m hm cs id f hf htp

end

/-- **C8, counterexample.**  The claim quantifies over every progress map;
annotation copies map entries verbatim, so a map entry with
`lastPage > totalPages > 0` produces an annotated file node violating
`lastPage ≤ totalPages`:  here `markStatus`-style data `{in_progress, 5, 3}`
yields a node with `lastPage 5 > totalPages 3`. -/
theorem claim_C8_counterexample :
    ∃ f, findFileInList "f1"
        (updateStatusInData [ContentItem.file "f1" "a" 0 .unread 0 0 "" ""]
          [("f1", ⟨.in_progress, 5, 3⟩)]) = some f ∧
      0 < fileTotalPages f ∧ ¬ (fileLastPage f ≤ fileTotalPages f) :=
  ⟨ContentItem.file "f1" "a" 0 .in_progress 5 3 "" "", rfl, by decide, by decide⟩

/-- **C8, amended.**  For every content tree and every progress map whose
entries themselves satisfy `lastPage ≤ totalPages` whenever
`totalPages > 0`, after annotating the tree from the map every file node
reachable by id lookup satisfies `lastPage ≤ totalPages` whenever
`totalPages > 0` (absent ids are annotated with the defaults `0/0`, which
satisfy the invariant vacuously). -/
theorem claim_C8 :
    ∀ (data : List ContentItem) (m : StatusMap),
      (∀ p ∈ m, 0 < p.2.totalPages → p.2.lastPage ≤ p.2.totalPages) →
      ∀ (id : String) (f : ContentItem),
        findFileInList id (updateStatusInData data m) = some f →
        0 < fileTotalPages f → fileLastPage f ≤ fileTotalPages f := by
  intro data m hm id f hf htp
  exact annotate_inv_list m hm data id f hf htp

/-- Witness for C8: a well-formed progress entry keeps the invariant. -/
theorem claim_C8_witness :
    fileLastPage (ContentItem.file "f1" "a" 0 .in_progress 2 5 "" "")
      ≤ fileTotalPages (ContentItem.file "f1" "a" 0 .in_progress 2 5 "" "") :=
  claim_C8 [ContentItem.file "f1" "a" 0 .unread 0 0 "" ""]
    [("f1", ⟨.in_progress, 2, 5⟩)] (by decide) "f1"
    (ContentItem.file "f1" "a" 0 .in_progress 2 5 "" "") (by rfl) (by decide)

/-! ## C10: progress writes reach the persisted snapshot -/

/-- **C10.** `markComicStatus` and `setTotalPages` write through to the
persisted content-tree snapshot: whenever a snapshot exists and contains a
file node with the id, the call re-persists a snapshot in which that node's
readStatus/lastPage/totalPages carry the written values (for `setTotalPages`
the preserved status/lastPage of the existing progress record, or the
`unread`/0 defaults) — so reading the snapshot immediately afterwards
reflects the new progress without a separate annotate pass — while every
file node with a different id and the entire structural skeleton of the
snapshot are unchanged. -/
theorem claim_C10 :
    ∀ (st : DBState) (content : List ContentItem) (id : String) (f : ContentItem),
      st.comicsRoot = some content →
      findFileInList id content = some f →
      (∀ (status : ReadStatus) (lp tp : Nat), ∃ content',
        (markComicStatus st id status lp tp).comicsRoot = some content' ∧
        findFileInList id content' = some (setFileFields f status lp (some tp)) ∧
        (∀ id2, id2 ≠ id → findFileInList id2 content' = findFileInList id2 content) ∧
        skelList content' = skelList content) ∧
      (∀ tp : Nat, ∃ content',
        (setTotalPages st id tp).comicsRoot = some content' ∧
        findFileInList id content'
          = some (setFileFields f
              (((getComicStatus st id).map (·.status)).getD .unread)
              (((getComicStatus st id).map (·.lastPage)).getD 0) (some tp)) ∧
        (∀ id2, id2 ≠ id → findFileInList id2 content' = findFileInList id2 content) ∧
        skelList content' = skelList content) := by
  intro st content id f hroot hf
  constructor
  · intro status lp tp
    refine ⟨updateStatusForId content id status lp (some tp), ?_, ?_, ?_, ?_⟩
    · unfold markComicStatus
      simp only [hroot]
    · exact find_updateStatusForId_self content id status lp (some tp) f hf
    · intro id2 hne
      exact find_updateStatusForId_other content id id2 status lp (some tp) hne
    · exact skel_updateStatusForId content id status lp (some tp)
  · intro tp
    refine ⟨updateStatusForId content id
        (((getComicStatus st id).map (·.status)).getD .unread)
        (((getComicStatus st id).map (·.lastPage)).getD 0) (some tp), ?_, ?_, ?_, ?_⟩
    · unfold setTotalPages
      simp only [hroot]
      rfl
    · exact find_updateStatusForId_self content id _ _ (some tp) f hf
    · intro id2 hne
      exact find_updateStatusForId_other content id id2 _ _ (some tp) hne
    · exact skel_updateStatusForId content id _ _ (some tp)

/-- Witness for C10: a concrete one-file snapshot is updated in place. -/
theorem claim_C10_witness :
    ∃ content',
      (markComicStatus ⟨some [ContentItem.file "f1" "a" 0 .unread 0 0 "" ""], [], []⟩
          "f1" .in_progress 5 20).comicsRoot = some content' ∧
      findFileInList "f1" content'
        = some (setFileFields (ContentItem.file "f1" "a" 0 .unread 0 0 "" "")
            .in_progress 5 (some 20)) ∧
      (∀ id2, id2 ≠ "f1" → findFileInList id2 content'
        = findFileInList id2 [ContentItem.file "f1" "a" 0 .unread 0 0 "" ""]) ∧
      skelList content' = skelList [ContentItem.file "f1" "a" 0 .unread 0 0 "" ""] :=
  (claim_C10 ⟨some [ContentItem.file "f1" "a" 0 .unread 0 0 "" ""], [], []⟩
    [ContentItem.file "f1" "a" 0 .unread 0 0 "" ""] "f1"
    (ContentItem.file "f1" "a" 0 .unread 0 0 "" "") (by rfl) (by rfl)).1
    .in_progress 5 20

/-! ## C3: batching (getComics.ts lines 61-90)

The `range` strings (`` `${startIndex}-${endIndex}` ``) are modelled by their
character lists.  JavaScript renders a nonnegative integer in decimal;
`parseInt(range.split('-')[0])` takes the longest prefix before the first
`'-'` and reads it back as a decimal number.  The decimal renderer below uses
a structural fuel argument (any fuel above the value itself suffices, and the
wrapper passes `n + 1`) so that it evaluates by reduction. -/

/-- The decimal digit characters. -/
def digitChar : Nat → Char
  | 0 => '0'
  | 1 => '1'
  | 2 => '2'
  | 3 => '3'
  | 4 => '4'
  | 5 => '5'
  | 6 => '6'
  | 7 => '7'
  | 8 => '8'
  | _ => '9'

/-- Decimal rendering, accumulating digits from the right. -/
def natToCharsGo : Nat → Nat → List Char → List Char
  | 0, _, acc => acc
  | fuel + 1, n, acc =>
    if n < 10 then digitChar n :: acc
    else natToCharsGo fuel (n / 10) (digitChar (n % 10) :: acc)

/-- JavaScript `` `${n}` `` for a nonnegative integer. -/
def natToChars (n : Nat) : List Char :=
  natToCharsGo (n + 1) n []

/-- `parseInt` on an all-digit string. -/
def parseDecChars (l : List Char) : Nat :=
  l.foldl (fun acc c => acc * 10 + digitVal c) 0

/-- `` `${s}-${e}` ``: the `range` string of a batch. -/
def mkRange (s e : Nat) : List Char :=
  natToChars s ++ '-' :: natToChars e

/-- `parseInt(range.split('-')[0])`: `split('-')[0]` is the longest prefix
before the first `'-'`. -/
def parseStart (range : List Char) : Nat :=
  parseDecChars (range.takeWhile (fun c => c != '-'))

/-- 10 to the number of decimal digits of `n`, with the same fuel recursion
as the renderer. -/
def tenPowGo : Nat → Nat → Nat
  | 0, _ => 1
  | fuel + 1, n => if n < 10 then 10 else 10 * tenPowGo fuel (n / 10)

theorem digitVal_digitChar : ∀ k, k < 10 → digitVal (digitChar k) = k := by decide

theorem digitChar_ne_dash : ∀ k, k < 10 → (digitChar k != '-') = true := by decide

theorem foldl_natToCharsGo : ∀ (n fuel : Nat), n < fuel → ∀ (acc : List Char) (a : Nat),
    (natToCharsGo fuel n acc).foldl (fun acc c => acc * 10 + digitVal c) a
      = acc.foldl (fun acc c => acc * 10 + digitVal c) (a * tenPowGo fuel n + n) := by
  intro n
  induction n using Nat.strong_induction_on with
  | _ n ih =>
    intro fuel hf acc a
    match fuel, hf with
    | fuel + 1, hf =>
      by_cases h10 : n < 10
      · unfold natToCharsGo tenPowGo
        rw [if_pos h10, if_pos h10, List.foldl_cons, digitVal_digitChar n h10]
      · unfold natToCharsGo tenPowGo
        rw [if_neg h10, if_neg h10]
        have hdiv : n / 10 < n := Nat.div_lt_self (by omega) (by omega)
        rw [ih (n / 10) hdiv fuel (by omega) _ _, List.foldl_cons,
          digitVal_digitChar (n % 10) (Nat.mod_lt n (by omega))]
        congr 1
        have := Nat.div_add_mod n 10
        ring_nf
        omega

theorem parseDecChars_natToChars (n : Nat) : parseDecChars (natToChars n) = n := by
  unfold parseDecChars natToChars
  rw [foldl_natToCharsGo n (n + 1) (by omega) [] 0]
  simp

theorem natToCharsGo_no_dash : ∀ (fuel n : Nat) (acc : List Char),
    (∀ c ∈ acc, (c != '-') = true) → ∀ c ∈ natToCharsGo fuel n acc, (c != '-') = true := by
  intro fuel
  induction fuel with
  | zero => exact fun n acc hacc => hacc
  | succ fuel ih =>
    intro n acc hacc c hc
    unfold natToCharsGo at hc
    by_cases h10 : n < 10
    · rw [if_pos h10] at hc
      rcases List.mem_cons.1 hc with h | h
      · rw [h]
        exact digitChar_ne_dash n h10
      · exact hacc c h
    · rw [if_neg h10] at hc
      refine ih (n / 10) (digitChar (n % 10) :: acc) ?_ c hc
      intro c' hc'
      rcases List.mem_cons.1 hc' with h | h
      · rw [h]
        exact digitChar_ne_dash (n % 10) (Nat.mod_lt n (by omega))
      · exact hacc c' h

theorem natToChars_no_dash (n : Nat) : ∀ c ∈ natToChars n, (c != '-') = true :=
  natToCharsGo_no_dash (n + 1) n [] (by intro c hc; cases hc)

theorem takeWhile_append_dash (xs ys : List Char)
    (h : ∀ c ∈ xs, (c != '-') = true) :
    (xs ++ '-' :: ys).takeWhile (fun c => c != '-') = xs := by
  induction xs with
  | nil => simp [List.takeWhile]
  | cons x xs ih =>
    rw [List.cons_append, List.takeWhile_cons]
    rw [h x (List.mem_cons_self x xs)]
    rw [ih (fun c hc => h c (List.mem_cons_of_mem x hc))]
    rfl

theorem parseStart_mkRange (s e : Nat) : parseStart (mkRange s e) = s := by
  unfold parseStart mkRange
  rw [takeWhile_append_dash _ _ (natToChars_no_dash s)]
  exact parseDecChars_natToChars s

/-- `FolderBatch` (getComics.ts lines 7-10); the `range` string is modelled
by its character list. -/
structure FolderBatch where
  range : List Char
  files : List FileLink
deriving Repr, DecidableEq

/-- The `for (let i = 0; i < files.length; i += batchSize)` loop of
`batchFiles` (getComics.ts lines 61-90).  When the remaining tail holds at
most two files and a previous batch exists, the tail is folded into that
batch: its start index is re-parsed from its `range` string, its range is
rewritten to `` `${startIndex}-${files.length - 1}` `` and its files to
`files.slice(startIndex)`.  Otherwise a normal batch
`files.slice(i, i + batchSize)` with range
`` `${i}-${min(i + batchSize - 1, files.length - 1)}` `` is pushed.
(The JavaScript loop never terminates for `batchSize = 0`; the model guards
on `0 < batchSize`, and the caller passes 40.) -/
def batchLoop (files : List FileLink) (batchSize : Nat) (i : Nat)
    (batches : List FolderBatch) : List FolderBatch :=
  if h : i < files.length ∧ 0 < batchSize then
    batchLoop files batchSize (i + batchSize)
      (if files.length - i ≤ 2 ∧ 0 < batches.length then
        match batches.getLast? with
        | some prev =>
          batches.dropLast ++ [⟨mkRange (parseStart prev.range) (files.length - 1),
            files.drop (parseStart prev.range)⟩]
        | none => batches
      else
        batches ++ [⟨mkRange i (min (i + batchSize - 1) (files.length - 1)),
          (files.drop i).take batchSize⟩])
  else batches
termination_by files.length - i
decreasing_by omega

/-- `batchFiles(files, batchSize)` (getComics.ts lines 61-90). -/
def batchFiles (files : List FileLink) (batchSize : Nat) : List FolderBatch :=
  batchLoop files batchSize 0 []

/-- The `j`-th consecutive chunk of `batchSize` files, with its range
string. -/
def chunkOf (files : List FileLink) (bs : Nat) (j : Nat) : FolderBatch :=
  ⟨mkRange (j * bs) (min (j * bs + bs - 1) (files.length - 1)),
    (files.drop (j * bs)).take bs⟩

/-- The claim's chunking: split the list into `⌈length / bs⌉` consecutive
chunks of `bs` files (the last one possibly shorter). -/
def specChunks (files : List FileLink) (bs : Nat) : List FolderBatch :=
  (List.range ((files.length + bs - 1) / bs)).map (chunkOf files bs)

/-- The claim's batching: consecutive chunks of `bs`, except that a final
remainder of exactly 1 or 2 files is folded into the previous chunk when a
previous chunk exists (the merged batch then covers everything from the
second-to-last chunk's start index to the end of the list). -/
def specBatches (files : List FileLink) (bs : Nat) : List FolderBatch :=
  let cs := specChunks files bs
  if 2 ≤ cs.length ∧ (files.length % bs = 1 ∨ files.length % bs = 2) then
    cs.dropLast.dropLast
      ++ [⟨mkRange ((cs.length - 2) * bs) (files.length - 1),
            files.drop ((cs.length - 2) * bs)⟩]
  else cs

theorem ceil_div_eq (bs k r : Nat) (hbs : 0 < bs) (hr1 : 1 ≤ r) (hrbs : r ≤ bs) :
    (k * bs + r + bs - 1) / bs = k + 1 := by
  have h1 : k * bs + r + bs - 1 = (r - 1) + (k + 1) * bs := by
    have h2 : (k + 1) * bs = k * bs + bs := by ring
    omega
  rw [h1, Nat.add_mul_div_right _ _ hbs, Nat.div_eq_of_lt (by omega)]
  omega

theorem range_map_getLast {α : Type} (f : Nat → α) (k : Nat) :
    ((List.range (k + 1)).map f).getLast? = some (f k) := by
  rw [List.range_succ, List.map_append]
  simp

theorem range_map_dropLast {α : Type} (f : Nat → α) (k : Nat) :
    ((List.range (k + 1)).map f).dropLast = (List.range k).map f := by
  rw [List.range_succ, List.map_append]
  simp

theorem batchLoop_exit (files : List FileLink) (bs i : Nat) (b : List FolderBatch)
    (h : ¬(i < files.length ∧ 0 < bs)) : batchLoop files bs i b = b := by
  rw [batchLoop, dif_neg h]

theorem specBatches_fold (files : List FileLink) (bs k' : Nat) (hbs : 3 ≤ bs)
    (h1 : k' * bs + bs < files.length)
    (h2 : files.length - (k' * bs + bs) ≤ 2) :
    specBatches files bs
      = (List.range k').map (chunkOf files bs)
        ++ [⟨mkRange (k' * bs) (files.length - 1), files.drop (k' * bs)⟩] := by
  have hmul : (k' + 1) * bs = k' * bs + bs := by ring
  have hlen2 : files.length = (k' + 1) * bs + (files.length - (k' + 1) * bs) := by
    omega
  have hr1 : 1 ≤ files.length - (k' + 1) * bs := by omega
  have hr2 : files.length - (k' + 1) * bs ≤ 2 := by omega
  have hKdiv : (files.length + bs - 1) / bs = k' + 2 := by
    conv_lhs => rw [hlen2]
    exact ceil_div_eq bs (k' + 1) (files.length - (k' + 1) * bs) (by omega) hr1 (by omega)
  have hmod : files.length % bs = files.length - (k' + 1) * bs := by
    conv_lhs => rw [hlen2]
    rw [Nat.add_comm, Nat.add_mul_mod_self_right]
    exact Nat.mod_eq_of_lt (by omega)
  simp only [specBatches, specChunks]
  rw [hKdiv, hmod]
  simp only [List.length_map, List.length_range]
  rw [if_pos ⟨by omega, by omega⟩]
  have harith : k' + 2 - 2 = k' := by omega
  rw [harith, range_map_dropLast, range_map_dropLast]

theorem specBatches_nofold (files : List FileLink) (bs k : Nat) (hbs : 3 ≤ bs)
    (hk : k * bs < files.length) (hle : files.length ≤ k * bs + bs)
    (hcase : ¬(files.length - k * bs ≤ 2 ∧ 0 < k)) :
    specBatches files bs = (List.range (k + 1)).map (chunkOf files bs) := by
  have hlen2 : files.length = k * bs + (files.length - k * bs) := by omega
  have hr1 : 1 ≤ files.length - k * bs := by omega
  have hKdiv : (files.length + bs - 1) / bs = k + 1 := by
    conv_lhs => rw [hlen2]
    exact ceil_div_eq bs k (files.length - k * bs) (by omega) hr1 (by omega)
  simp only [specBatches, specChunks]
  rw [hKdiv]
  simp only [List.length_map, List.length_range]
  rw [if_neg ?_]
  intro hcond
  obtain ⟨hlen, hmod⟩ := hcond
  -- the fold condition needs at least two chunks and a remainder of 1 or 2
  have hkpos : 0 < k := by omega
  have hrem3 : 3 ≤ files.length - k * bs := by
    by_contra hcon
    exact hcase ⟨by omega, hkpos⟩
  have hmodval : files.length % bs = files.length - k * bs ∨
      files.length % bs = 0 := by
    by_cases hfull : files.length - k * bs = bs
    · right
      have : files.length = bs + k * bs := by omega
      rw [this, Nat.add_mul_mod_self_right, Nat.mod_self]
    · left
      conv_lhs => rw [hlen2]
      rw [Nat.add_comm, Nat.add_mul_mod_self_right]
      exact Nat.mod_eq_of_lt (by omega)
  omega

theorem batchLoop_spec (files : List FileLink) (bs : Nat) (hbs : 3 ≤ bs) :
    ∀ (m k : Nat), files.length - k * bs ≤ m → k * bs < files.length →
      batchLoop files bs (k * bs) ((List.range k).map (chunkOf files bs))
        = specBatches files bs := by
  intro m
  induction m with
  | zero =>
    intro k hm hk
    omega
  | succ m ih =>
    intro k hm hk
    rw [batchLoop, dif_pos ⟨hk, by omega⟩]
    by_cases hcase : files.length - k * bs ≤ 2 ∧
        0 < ((List.range k).map (chunkOf files bs)).length
    · -- last iteration, 1-2 files left, previous batch exists: fold
      obtain ⟨hrem, hk0⟩ := hcase
      have hkpos : 0 < k := by simpa using hk0
      obtain ⟨k', rfl⟩ : ∃ k', k = k' + 1 := ⟨k - 1, by omega⟩
      rw [if_pos ⟨hrem, hk0⟩, range_map_getLast (chunkOf files bs) k']
      show batchLoop files bs ((k' + 1) * bs + bs)
          (((List.range (k' + 1)).map (chunkOf files bs)).dropLast
            ++ [⟨mkRange (parseStart (chunkOf files bs k').range) (files.length - 1),
                  files.drop (parseStart (chunkOf files bs k').range)⟩])
        = specBatches files bs
      have hps : parseStart (chunkOf files bs k').range = k' * bs := by
        show parseStart (mkRange (k' * bs) _) = k' * bs
        exact parseStart_mkRange _ _
      have hmul : (k' + 1) * bs = k' * bs + bs := by ring
      rw [hps, range_map_dropLast,
        batchLoop_exit files bs _ _ (by rw [hmul] at hrem; omega)]
      exact (specBatches_fold files bs k' hbs (by rw [hmul] at hk; omega)
        (by rw [hmul] at hrem; omega)).symm
    · -- push a normal batch
      rw [if_neg hcase]
      have hconcat : (List.range k).map (chunkOf files bs)
          ++ [⟨mkRange (k * bs) (min (k * bs + bs - 1) (files.length - 1)),
              (files.drop (k * bs)).take bs⟩]
          = (List.range (k + 1)).map (chunkOf files bs) := by
        rw [List.range_succ, List.map_append]
        rfl
      rw [hconcat]
      have hmul : (k + 1) * bs = k * bs + bs := by ring
      by_cases hnext : k * bs + bs < files.length
      · have hih := ih (k + 1) (by rw [hmul]; omega) (by rw [hmul]; omega)
        rw [hmul] at hih
        exact hih
      · rw [batchLoop_exit files bs _ _ (by omega)]
        refine (specBatches_nofold files bs k hbs hk (by omega) ?_).symm
        rintro ⟨h1, h2⟩
        exact hcase ⟨h1, by simpa using h2⟩

theorem batchFiles_eq_specBatches (files : List FileLink) (bs : Nat) (hbs : 3 ≤ bs) :
    batchFiles files bs = specBatches files bs := by
  unfold batchFiles
  by_cases hlen : 0 < files.length
  · have h := batchLoop_spec files bs hbs files.length 0 (by simp) (by simpa using hlen)
    simpa using h
  · have hlen0 : files.length = 0 := by omega
    rw [batchLoop_exit files bs 0 [] (by omega)]
    simp only [specBatches, specChunks, hlen0]
    rw [Nat.div_eq_of_lt (by omega)]
    simp

/-- A listing of `n` distinctly named files. -/
def c3Files (n : Nat) : List FileLink :=
  (List.range n).map (fun i => ⟨toString i, ""⟩)

/-- **C3.** For every list of files and batch size 40, batching splits the
list into consecutive chunks of 40, except that a final remainder of exactly
1 or 2 files is folded into the previous batch instead of forming its own
batch (when a previous batch exists).  Concretely: 42 files yield the single
batch `0-41` (not `0-39` plus `40-41`), 41 files yield the single batch
`0-40`, and 38 files yield the single batch `0-37`. -/
theorem claim_C3 :
    (∀ files : List FileLink, batchFiles files 40 = specBatches files 40) ∧
    batchFiles (c3Files 42) 40 = [⟨['0', '-', '4', '1'], c3Files 42⟩] ∧
    batchFiles (c3Files 41) 40 = [⟨['0', '-', '4', '0'], c3Files 41⟩] ∧
    batchFiles (c3Files 38) 40 = [⟨['0', '-', '3', '7'], c3Files 38⟩] := by
  have hgen : ∀ files : List FileLink, batchFiles files 40 = specBatches files 40 :=
    fun files => batchFiles_eq_specBatches files 40 (by omega)
  refine ⟨hgen, ?_, ?_, ?_⟩ <;> rw [hgen] <;> rfl

end ComicReader
